import Mathlib

/-!
Verification development for the pitch-trainer core: a shallow embedding of
the pitch-math utilities (src/audio/pitchMath.ts), the YIN-style
autocorrelation estimator (src/audio/autocorrelation.ts), the microphone
tracker's frame classification and smoothing (src/audio/microphoneTracker.ts),
the hold-timer state machine (src/game/holdTimer.ts), and the octave-anchor
logic of the consumer (src/App.tsx).

Numbers that the source manipulates with only field operations and
comparisons are embedded as rationals so the definitions stay executable;
quantities that genuinely involve square roots or logarithms (RMS, the
frequency-to-note-number conversion) are embedded as real numbers.
JavaScript's truncated remainder operator on integers is Int.tmod, and
JavaScript's Math.round is Mathlib's round (both round halves up).
-/

/-! ## Pitch math (src/audio/pitchMath.ts) -/

noncomputable def hzToMidi (frequencyHz : ℝ) : ℝ :=
  69 + 12 * Real.logb 2 (frequencyHz / 440)

noncomputable def midiToHz (midi : ℝ) : ℝ :=
  440 * 2 ^ ((midi - 69) / 12)

/-- The JavaScript idiom ((a % 12) + 12) % 12 with the truncated remainder. -/
def jsWrapMod12 (a : ℤ) : ℤ :=
  (a.tmod 12 + 12).tmod 12

noncomputable def midiToPitchClass (midi : ℝ) : ℤ :=
  jsWrapMod12 (round midi)

structure PitchStats where
  midi : ℝ
  roundedMidi : ℤ
  pitchClass : ℤ
  centsFromRoundedMidi : ℝ

noncomputable def analyzePitch (frequencyHz : ℝ) : PitchStats :=
  let midi := hzToMidi frequencyHz
  let roundedMidi := round midi
  let pitchClass := jsWrapMod12 roundedMidi
  let centsFromRoundedMidi := (midi - (roundedMidi : ℝ)) * 100
  ⟨midi, roundedMidi, pitchClass, centsFromRoundedMidi⟩

noncomputable def nearestTargetMidi (detectedMidi : ℝ) (targetPitchClass : ℤ) : ℤ :=
  let rounded := round detectedMidi
  let roundedPc := jsWrapMod12 rounded
  let diff0 := targetPitchClass - roundedPc
  let diff1 := if diff0 > 6 then diff0 - 12 else diff0
  let diff2 := if diff1 < -6 then diff1 + 12 else diff1
  rounded + diff2

noncomputable def centsFromNearestTarget (detectedMidi : ℝ) (targetPitchClass : ℤ) : ℝ :=
  (detectedMidi - (nearestTargetMidi detectedMidi targetPitchClass : ℝ)) * 100

def matchesPitchClass (detectedPitchClass targetPitchClass : ℤ) : Bool :=
  jsWrapMod12 detectedPitchClass = jsWrapMod12 targetPitchClass

def sortQ (values : List ℚ) : List ℚ :=
  values.mergeSort (fun a b => decide (a ≤ b))

def median (values : List ℚ) : ℚ :=
  if values.length = 0 then 0
  else
    let sorted := sortQ values
    let middle := sorted.length / 2
    if sorted.length % 2 = 0 then (sorted.getD (middle - 1) 0 + sorted.getD middle 0) / 2
    else sorted.getD middle 0

/-! ## Autocorrelation estimator (src/audio/autocorrelation.ts) -/

structure AutocorrelationResult where
  frequencyHz : Option ℚ
  clarity : ℚ
deriving DecidableEq

noncomputable def computeRms (buffer : List ℚ) : ℝ :=
  Real.sqrt (((buffer.map (fun v => v * v)).sum : ℚ) / (buffer.length : ℚ))

def minLagOf (sampleRate maxHz : ℚ) : ℤ := ⌊sampleRate / maxHz⌋

def maxLagOf (sampleRate minHz : ℚ) : ℤ := ⌊sampleRate / minHz⌋

/-- Reading a sample buffer at an integer index, 0 outside its range. -/
def bufGet (buffer : List ℚ) (i : ℤ) : ℚ :=
  if 0 ≤ i then buffer.getD i.toNat 0 else 0

/-- The YIN difference at one lag: the sum of squared sample differences
over all positions where both samples lie inside the block. -/
def differencesAt (buffer : List ℚ) (lag : ℤ) : ℚ :=
  ((List.range ((buffer.length - lag).toNat)).map
    (fun i => (bufGet buffer i - bufGet buffer ((i : ℤ) + lag)) ^ 2)).sum

/-- The running sum of the differences from minLag up to the given lag. -/
def runningAt (buffer : List ℚ) (minLag lag : ℤ) : ℚ :=
  ((List.range ((lag - minLag + 1).toNat)).map
    (fun j => differencesAt buffer (minLag + j))).sum

/-- The cumulative-mean-normalized difference array: entries in
[minLag, maxLag] are written by the loop, entry 0 is preset to 1, and all
other entries keep the zero the array was initialized with. -/
def cmndAt (buffer : List ℚ) (minLag maxLag lag : ℤ) : ℚ :=
  if minLag ≤ lag ∧ lag ≤ maxLag then
    let running := runningAt buffer minLag lag
    if 0 < running then differencesAt buffer lag * lag / running else 1
  else if lag = 0 then 1 else 0

/-- The candidate-lag scan: walk lags upward, keep the global minimum of the
normalized difference, and stop early at the first lag below the 0.12
threshold that is not above either neighbor. The pair carried along is
(bestLag, bestCmnd), with bestLag starting at the -1 sentinel. -/
def scanBest (cmnd : ℤ → ℚ) : ℕ → ℤ → ℤ × ℚ → ℤ × ℚ
  | 0, _, best => best
  | fuel + 1, lag, best =>
    let value := cmnd lag
    let best' := if value < best.2 then (lag, value) else best
    if value < 0.12 ∧ value ≤ cmnd (lag - 1) ∧ value ≤ cmnd (lag + 1) then (lag, value)
    else scanBest cmnd fuel (lag + 1) best'

def bestPairOf (buffer : List ℚ) (sampleRate minHz maxHz : ℚ) : ℤ × ℚ :=
  let minLag := minLagOf sampleRate maxHz
  let maxLag := maxLagOf sampleRate minHz
  scanBest (cmndAt buffer minLag maxLag) (maxLag - 1 - (minLag + 1)).toNat (minLag + 1) (-1, 1)

/-- The parabolic refinement of the selected lag, with the shift clamped
into [-1, 1]. -/
def refinedLagOf (buffer : List ℚ) (sampleRate minHz maxHz : ℚ) : ℚ :=
  let minLag := minLagOf sampleRate maxHz
  let maxLag := maxLagOf sampleRate minHz
  let bestLag := (bestPairOf buffer sampleRate minHz maxHz).1
  let left := cmndAt buffer minLag maxLag (bestLag - 1)
  let center := cmndAt buffer minLag maxLag bestLag
  let right := cmndAt buffer minLag maxLag (bestLag + 1)
  let denominator := left - 2 * center + right
  let shift := if denominator = 0 then 0 else 1 / 2 * (left - right) / denominator
  (bestLag : ℚ) + max (-1) (min 1 shift)

/-- The full estimator. The result is wrapped in Option: the value none
models the RangeError the source throws from new Float32Array(maxLag + 2)
when both early guards pass and maxLag + 2 is negative (a sufficiently
negative frequency band). When minLag is negative but the allocation
length is not, the source reads the arrays at negative indices: those
reads are undefined, the running sum becomes NaN, every comparison
against the poisoned normalized values is false, so the scan keeps its -1
sentinel and the call returns the null estimate; that outcome is the
dedicated minLag-negative branch below. On nonnegative lag ranges every
array access is in bounds and the branch-free embedding of the loops
applies. -/
def detectPitchAutocorrelation (buffer : List ℚ) (sampleRate minHz maxHz : ℚ) :
    Option AutocorrelationResult :=
  let minLag := minLagOf sampleRate maxHz
  let maxLag := maxLagOf sampleRate minHz
  if maxLag ≤ minLag ∨ (buffer.length : ℤ) ≤ maxLag + 2 then some ⟨none, 0⟩
  else if maxLag + 2 < 0 then none
  else if minLag < 0 then some ⟨none, 0⟩
  else
    let best := bestPairOf buffer sampleRate minHz maxHz
    if best.1 < 0 then some ⟨none, 0⟩
    else
      let refinedLag := refinedLagOf buffer sampleRate minHz maxHz
      let frequencyHz : Option ℚ :=
        if 0 < refinedLag then some (sampleRate / refinedLag) else none
      let clarity := max 0 (min 1 (1 - best.2))
      if frequencyHz = none ∨ frequencyHz = some 0 then some ⟨none, 0⟩
      else some ⟨frequencyHz, clarity⟩

/-! ## Microphone tracker (src/audio/microphoneTracker.ts) -/

inductive MicStatus where
  | idle
  | listening
  | tooQuiet
  | noPitch
  | lowConfidence
deriving DecidableEq

structure RawPitchFrame where
  timestampMs : ℚ
  status : MicStatus
  frequencyHz : Option ℚ
  clarity : ℚ
  rms : ℝ

structure SmoothedPitchFrame where
  timestampMs : ℚ
  status : MicStatus
  frequencyHz : Option ℚ
  clarity : ℚ
  rms : ℝ
  midi : Option ℝ
  pitchClass : Option ℤ
  centsFromTarget : Option ℝ

structure TrackerSettings where
  rmsThreshold : ℝ
  clarityThreshold : ℚ
  smoothingWindowMs : ℚ

structure TrackerState where
  latest : RawPitchFrame
  history : List RawPitchFrame
  settings : TrackerSettings

/-- The onaudioprocess handler: classify one ingested sample block into a
RawPitchFrame, by the quiet / no-pitch / low-confidence / listening
priority chain. The quiet branch returns before the estimator runs; if
the estimator throws, the exception propagates out of the handler and no
frame is produced, which the embedding models as none. -/
noncomputable def onAudioProcess (settings : TrackerSettings) (timestampMs : ℚ)
    (buffer : List ℚ) (sampleRate : ℚ) : Option RawPitchFrame :=
  let rms := computeRms buffer
  if rms < settings.rmsThreshold then
    some ⟨timestampMs, MicStatus.tooQuiet, none, 0, rms⟩
  else
    match detectPitchAutocorrelation buffer sampleRate 70 900 with
    | none => none
    | some result =>
      if result.frequencyHz = none ∨ result.frequencyHz = some 0 then
        some ⟨timestampMs, MicStatus.noPitch, none, result.clarity, rms⟩
      else if result.clarity < settings.clarityThreshold then
        some ⟨timestampMs, MicStatus.lowConfidence, none, result.clarity, rms⟩
      else
        some ⟨timestampMs, MicStatus.listening, result.frequencyHz, result.clarity, rms⟩

/-- The RawFrames whose timestamps lie within the trailing smoothing
window ending at the query time. -/
def recentOf (st : TrackerState) (now : ℚ) : List RawPitchFrame :=
  st.history.filter (fun f => decide (now - st.settings.smoothingWindowMs ≤ f.timestampMs))

/-- The in-window frames that carry a frequency. -/
def validOf (st : TrackerState) (now : ℚ) : List RawPitchFrame :=
  (recentOf st now).filter (fun f => decide (f.frequencyHz ≠ none))

noncomputable def getSmoothedFrame (st : TrackerState) (now : ℚ)
    (targetPitchClass : ℤ) : SmoothedPitchFrame :=
  let recent := recentOf st now
  if recent.length = 0 then
    ⟨now, st.latest.status, none, 0, 0, none, none, none⟩
  else
    let valid := validOf st now
    if valid.length = 0 then
      let last := recent.getD (recent.length - 1) ⟨0, MicStatus.idle, none, 0, 0⟩
      ⟨now, last.status, none, last.clarity, last.rms, none, none, none⟩
    else
      let frequencies := valid.map (fun f => f.frequencyHz.getD 0)
      let clarity := (valid.map RawPitchFrame.clarity).sum / (valid.length : ℚ)
      let rms := (valid.map RawPitchFrame.rms).sum / (valid.length : ℝ)
      let smoothedFrequency := median frequencies
      let pitch := analyzePitch (smoothedFrequency : ℝ)
      ⟨now, MicStatus.listening, some smoothedFrequency, clarity, rms,
        some pitch.midi, some pitch.pitchClass,
        some (centsFromNearestTarget pitch.midi targetPitchClass)⟩

/-! ## Hold timer (src/game/holdTimer.ts) -/

structure HoldProgress where
  progress : ℚ
  elapsedMs : ℚ
  success : Bool
  justSucceeded : Bool
deriving DecidableEq

structure HoldTimer where
  startMs : Option ℚ
  success : Bool
deriving DecidableEq

def HoldTimer.init : HoldTimer := ⟨none, false⟩

def HoldTimer.update (t : HoldTimer) (inTune : Bool) (nowMs requiredMs : ℚ) :
    HoldTimer × HoldProgress :=
  if inTune = false then
    (HoldTimer.init, ⟨0, 0, false, false⟩)
  else
    let startMs := t.startMs.getD nowMs
    let elapsedMs := max 0 (nowMs - startMs)
    let progress := min 1 (elapsedMs / requiredMs)
    if t.success = false ∧ requiredMs ≤ elapsedMs then
      (⟨some startMs, true⟩, ⟨progress, elapsedMs, true, true⟩)
    else
      (⟨some startMs, t.success⟩, ⟨progress, elapsedMs, t.success, false⟩)

/-- Fold a sequence of (inTune, nowMs) calls through the hold timer,
collecting the reported progress records. -/
def runHoldTimer (t : HoldTimer) (calls : List (Bool × ℚ)) (requiredMs : ℚ) :
    List HoldProgress :=
  match calls with
  | [] => []
  | c :: rest =>
    (t.update c.1 c.2 requiredMs).2 :: runHoldTimer (t.update c.1 c.2 requiredMs).1 rest requiredMs

/-! ## Octave anchor (src/App.tsx) -/

def getPitchClassCandidates (pitchClass minMidi maxMidi : ℤ) : List ℤ :=
  ((List.range (maxMidi + 1 - minMidi).toNat).map (fun i => minMidi + (i : ℤ))).filter
    (fun midi => decide (jsWrapMod12 midi = pitchClass))

noncomputable def closestCandidate (detectedMidi : ℝ) (candidates : List ℤ) : ℤ :=
  match candidates with
  | [] => round detectedMidi
  | c :: cs =>
    cs.foldl
      (fun (best candidate : ℤ) =>
        if |((candidate : ℝ)) - detectedMidi| < |((best : ℝ)) - detectedMidi| then candidate
        else best)
      c

/-- One step of the visual-anchor hysteresis from stepPitchUi: adopt the
best candidate when there is no valid anchor, otherwise switch only when
the best candidate beats the anchor by more than 280 cents. -/
noncomputable def updateAnchor (currentAnchor : Option ℤ) (candidates : List ℤ)
    (detectedMidi : ℝ) : ℤ :=
  let bestCandidate := closestCandidate detectedMidi candidates
  let hysteresisCents : ℝ := 280
  match currentAnchor with
  | none => bestCandidate
  | some anchor =>
    if anchor ∉ candidates then bestCandidate
    else if bestCandidate ≠ anchor then
      let currentDistance := |(detectedMidi - (anchor : ℝ)) * 100|
      let bestDistance := |(detectedMidi - (bestCandidate : ℝ)) * 100|
      if bestDistance + hysteresisCents < currentDistance then bestCandidate else anchor
    else anchor

/-! ## Helper lemmas -/

theorem jsWrapMod12_eq (a : ℤ) : jsWrapMod12 a = a % 12 := by
  unfold jsWrapMod12
  have h1 : a.tmod 12 < 12 := Int.tmod_lt_of_pos a (by norm_num)
  have h2 : -12 < a.tmod 12 := by
    have h3 := Int.tmod_lt_of_pos (-a) (show (0 : ℤ) < 12 by norm_num)
    have h4 : (-a).tmod 12 = -(a.tmod 12) := by
      rw [Int.tmod_def, Int.tmod_def, Int.neg_tdiv]; ring
    omega
  have h4 : (a.tmod 12 + 12).tmod 12 = (a.tmod 12 + 12) % 12 :=
    Int.tmod_eq_emod (by omega) (by norm_num)
  have h5 := Int.tmod_add_tdiv a 12
  rw [h4]
  omega

theorem round_eq_of_abs_sub_lt_half {d : ℝ} {m : ℤ} (h : |d - (m : ℝ)| < 1 / 2) :
    round d = m := by
  rw [round_eq]
  rw [abs_lt] at h
  refine Int.floor_eq_iff.2 ⟨by linarith [h.1], by linarith [h.2]⟩

/-! ## Claim theorems -/

/-- C8: for every real note number, including negative ones, the
pitch-class mapping equals ((round(noteNumber) mod 12) + 12) mod 12 with
the JavaScript truncated remainder, agrees with the mathematical remainder
modulo 12, and always lands in [0, 11]. -/
theorem pitch_class_reduction_in_range (m : ℝ) :
    midiToPitchClass m = ((round m).tmod 12 + 12).tmod 12 ∧
    midiToPitchClass m = round m % 12 ∧
    0 ≤ midiToPitchClass m ∧ midiToPitchClass m ≤ 11 := by
  have he : midiToPitchClass m = round m % 12 := jsWrapMod12_eq (round m)
  refine ⟨rfl, he, ?_, ?_⟩
  · rw [he]
    exact Int.emod_nonneg _ (by norm_num)
  · rw [he]
    have := Int.emod_lt_of_pos (round m) (show (0 : ℤ) < 12 by norm_num)
    omega

/-- C7: when the detected note number lies strictly within half a semitone
of an octave-equivalent m of a target pitch class in [0, 11], the nearest
target note number is that m, the computed cents have magnitude below 50,
and their sign matches the direction of the deviation. -/
theorem cents_from_nearest_target_within_window (d : ℝ) (tp m : ℤ)
    (_htp0 : 0 ≤ tp) (_htp1 : tp ≤ 11) (hm : m % 12 = tp)
    (hd : |d - (m : ℝ)| < 1 / 2) :
    nearestTargetMidi d tp = m ∧
    |centsFromNearestTarget d tp| < 50 ∧
    (0 < centsFromNearestTarget d tp ↔ (m : ℝ) < d) ∧
    (centsFromNearestTarget d tp < 0 ↔ d < (m : ℝ)) := by
  have hround : round d = m := round_eq_of_abs_sub_lt_half hd
  have hnear : nearestTargetMidi d tp = m := by
    simp only [nearestTargetMidi, hround, jsWrapMod12_eq, hm, sub_self]
    norm_num
  have hcents : centsFromNearestTarget d tp = (d - (m : ℝ)) * 100 := by
    unfold centsFromNearestTarget
    rw [hnear]
  refine ⟨hnear, ?_, ?_, ?_⟩
  · rw [hcents, abs_mul, abs_of_pos (show (0 : ℝ) < 100 by norm_num)]
    nlinarith [abs_nonneg (d - (m : ℝ))]
  · rw [hcents]
    constructor
    · intro h; nlinarith
    · intro h; nlinarith
  · rw [hcents]
    constructor
    · intro h; nlinarith
    · intro h; nlinarith

/-- C10: with no candidate of the target pitch class in the window, the
best-candidate function returns the rounded detected note number; and on a
distance tie the candidate appearing earlier in the list wins, because the
fold's comparison is strict. -/
theorem closest_candidate_empty_and_ties :
    (∀ d : ℝ, closestCandidate d [] = round d) ∧
    (∀ (d : ℝ) (c : ℤ) (cs : List ℤ),
      (∀ c' ∈ cs, |(c : ℝ) - d| ≤ |(c' : ℝ) - d|) → closestCandidate d (c :: cs) = c) ∧
    (∀ (d : ℝ) (c1 c2 : ℤ), |(c1 : ℝ) - d| = |(c2 : ℝ) - d| →
      closestCandidate d [c1, c2] = c1) := by
  have hfold : ∀ (d : ℝ) (cs : List ℤ) (c : ℤ),
      (∀ c' ∈ cs, |(c : ℝ) - d| ≤ |(c' : ℝ) - d|) →
      cs.foldl
        (fun (best candidate : ℤ) =>
          if |((candidate : ℝ)) - d| < |((best : ℝ)) - d| then candidate else best) c = c := by
    intro d cs
    induction cs with
    | nil => intro c _; rfl
    | cons c1 cs ih =>
      intro c h
      have h1 : ¬ |(c1 : ℝ) - d| < |(c : ℝ) - d| :=
        not_lt.2 (h c1 (List.mem_cons_self c1 cs))
      simp only [List.foldl_cons, if_neg h1]
      exact ih c (fun c' hc' => h c' (List.mem_cons_of_mem c1 hc'))
  refine ⟨fun d => rfl, ?_, ?_⟩
  · intro d c cs h
    exact hfold d cs c h
  · intro d c1 c2 h
    show closestCandidate d [c1, c2] = c1
    unfold closestCandidate
    simp only [List.foldl_cons, List.foldl_nil]
    rw [h, if_neg (lt_irrefl _)]

/-- C4: the anchor step adopts the best candidate unconditionally when no
valid anchor exists; with a valid anchor it switches to the best candidate
when that candidate is closer to the detected note number by more than 280
cents, and keeps the anchor when it is closer by less than 280 cents. -/
theorem anchor_hysteresis (tp minMidi maxMidi : ℤ) (d : ℝ) :
    (updateAnchor none (getPitchClassCandidates tp minMidi maxMidi) d =
      closestCandidate d (getPitchClassCandidates tp minMidi maxMidi)) ∧
    (∀ x : ℤ, x ∉ getPitchClassCandidates tp minMidi maxMidi →
      updateAnchor (some x) (getPitchClassCandidates tp minMidi maxMidi) d =
        closestCandidate d (getPitchClassCandidates tp minMidi maxMidi)) ∧
    (∀ x : ℤ, x ∈ getPitchClassCandidates tp minMidi maxMidi →
      |(d - (closestCandidate d (getPitchClassCandidates tp minMidi maxMidi) : ℝ)) * 100|
          + 280 < |(d - (x : ℝ)) * 100| →
      updateAnchor (some x) (getPitchClassCandidates tp minMidi maxMidi) d =
        closestCandidate d (getPitchClassCandidates tp minMidi maxMidi)) ∧
    (∀ x : ℤ, x ∈ getPitchClassCandidates tp minMidi maxMidi →
      |(d - (x : ℝ)) * 100|
          - |(d - (closestCandidate d (getPitchClassCandidates tp minMidi maxMidi) : ℝ)) * 100|
          < 280 →
      updateAnchor (some x) (getPitchClassCandidates tp minMidi maxMidi) d = x) := by
  set cands := getPitchClassCandidates tp minMidi maxMidi with hcands
  set best := closestCandidate d cands with hbest
  refine ⟨rfl, ?_, ?_, ?_⟩
  · intro x hx
    simp only [updateAnchor, ← hbest]
    rw [if_pos hx]
  · intro x hx hclose
    have hne : best ≠ x := by
      intro he
      rw [← he] at hclose
      linarith
    simp only [updateAnchor, ← hbest]
    rw [if_neg (by simpa using hx), if_pos hne, if_pos (by linarith)]
  · intro x hx hfar
    simp only [updateAnchor, ← hbest]
    rw [if_neg (by simpa using hx)]
    by_cases hne : best = x
    · rw [if_neg (by simp [hne])]
    · rw [if_pos hne, if_neg (by intro h; linarith)]

/-- C3: the hold timer resets completely on any out-of-tune call; while a
streak is running, justSucceeded fires exactly at the first call whose
elapsed time reaches the required duration and never again while the
success flag is held; the concrete call sequence from the specification
produces exactly the advertised success and justSucceeded flags. -/
theorem hold_timer_one_shot_per_streak :
    (∀ (t : HoldTimer) (nowMs requiredMs : ℚ),
      t.update false nowMs requiredMs = (HoldTimer.init, ⟨0, 0, false, false⟩)) ∧
    (∀ (t : HoldTimer) (nowMs requiredMs : ℚ), t.success = true →
      (t.update true nowMs requiredMs).2.justSucceeded = false ∧
      (t.update true nowMs requiredMs).2.success = true ∧
      (t.update true nowMs requiredMs).1.success = true) ∧
    (∀ (t : HoldTimer) (nowMs requiredMs : ℚ), t.success = false →
      ((t.update true nowMs requiredMs).2.justSucceeded = true ↔
        requiredMs ≤ max 0 (nowMs - t.startMs.getD nowMs)) ∧
      (t.update true nowMs requiredMs).2.success
        = (t.update true nowMs requiredMs).2.justSucceeded) ∧
    ((runHoldTimer HoldTimer.init [(true, 0), (true, 999), (true, 1000), (true, 1200)] 1000).map
        (fun p => (p.success, p.justSucceeded)) =
      [(false, false), (false, false), (true, true), (true, false)]) := by
  have hup : ∀ (t : HoldTimer) (nowMs requiredMs : ℚ),
      t.update true nowMs requiredMs =
        if t.success = false ∧ requiredMs ≤ max 0 (nowMs - t.startMs.getD nowMs) then
          ((⟨some (t.startMs.getD nowMs), true⟩ : HoldTimer),
            (⟨min 1 (max 0 (nowMs - t.startMs.getD nowMs) / requiredMs),
              max 0 (nowMs - t.startMs.getD nowMs), true, true⟩ : HoldProgress))
        else
          ((⟨some (t.startMs.getD nowMs), t.success⟩ : HoldTimer),
            (⟨min 1 (max 0 (nowMs - t.startMs.getD nowMs) / requiredMs),
              max 0 (nowMs - t.startMs.getD nowMs), t.success, false⟩ : HoldProgress)) := by
    intro t nowMs requiredMs
    unfold HoldTimer.update
    rw [if_neg (by simp)]
  refine ⟨fun t nowMs requiredMs => rfl, ?_, ?_, ?_⟩
  · intro t nowMs requiredMs hs
    rw [hup]
    rw [if_neg (by rw [hs]; intro h; exact absurd h.1 (by simp))]
    exact ⟨rfl, hs, hs⟩
  · intro t nowMs requiredMs hs
    rw [hup]
    by_cases hr : requiredMs ≤ max 0 (nowMs - t.startMs.getD nowMs)
    · rw [if_pos ⟨hs, hr⟩]
      exact ⟨iff_of_true rfl hr, rfl⟩
    · rw [if_neg (fun h => hr h.2)]
      refine ⟨iff_of_false (by rw [hs]; simp) hr, hs⟩
  · have u1 : HoldTimer.update ⟨none, false⟩ true 0 1000 =
        (⟨some 0, false⟩, ⟨0, 0, false, false⟩) := by
      rw [hup]
      rw [if_neg (by intro h; norm_num at h)]
      norm_num
    have u2 : HoldTimer.update ⟨some 0, false⟩ true 999 1000 =
        (⟨some 0, false⟩, ⟨999 / 1000, 999, false, false⟩) := by
      rw [hup]
      rw [if_neg (by intro h; norm_num at h)]
      norm_num
    have u3 : HoldTimer.update ⟨some 0, false⟩ true 1000 1000 =
        (⟨some 0, true⟩, ⟨1, 1000, true, true⟩) := by
      rw [hup]
      rw [if_pos (by norm_num)]
      norm_num
    have u4 : HoldTimer.update ⟨some 0, true⟩ true 1200 1000 =
        (⟨some 0, true⟩, ⟨1, 1200, true, false⟩) := by
      rw [hup]
      rw [if_neg (by intro h; exact absurd h.1 (by simp))]
      norm_num
    show (runHoldTimer ⟨none, false⟩ _ 1000).map _ = _
    simp only [runHoldTimer, u1, u2, u3, u4, List.map]

/-- Witness for C7 at detected note number 69.2 and target pitch class 9. -/
theorem cents_from_nearest_target_witness :
    nearestTargetMidi ((346 / 5 : ℝ)) 9 = 69 ∧
    |centsFromNearestTarget ((346 / 5 : ℝ)) 9| < 50 ∧
    0 < centsFromNearestTarget ((346 / 5 : ℝ)) 9 := by
  have h := cents_from_nearest_target_within_window (346 / 5 : ℝ) 9 69
    (by norm_num) (by norm_num) (by decide)
    (by rw [show ((346 / 5 : ℝ)) - ((69 : ℤ) : ℝ) = 1 / 5 by push_cast; ring,
      abs_of_pos (by norm_num)]; norm_num)
  exact ⟨h.1, h.2.1, h.2.2.1.2 (by push_cast; norm_num)⟩

/-- Witness for C10: the empty candidate list falls back to rounding, and
a two-way tie keeps the earlier candidate. -/
theorem closest_candidate_witness :
    closestCandidate (5 : ℝ) [] = 5 ∧
    closestCandidate ((121 / 2 : ℝ)) [60, 61] = 60 := by
  have h := closest_candidate_empty_and_ties
  constructor
  · rw [h.1 5]
    exact round_eq_of_abs_sub_lt_half (m := 5) (by norm_num)
  · exact h.2.2 (121 / 2) 60 61
      (by rw [show ((60 : ℤ) : ℝ) - 121 / 2 = -(1 / 2) by push_cast; ring,
        show ((61 : ℤ) : ℝ) - 121 / 2 = 1 / 2 by push_cast; ring, abs_neg])

/-- Witness for C4 with target pitch class 9 in the treble window, where
the candidates are note numbers 57 and 69 and the detected pitch is 58. -/
theorem anchor_hysteresis_witness :
    updateAnchor none (getPitchClassCandidates 9 57 79) 58 =
      closestCandidate 58 (getPitchClassCandidates 9 57 79) ∧
    updateAnchor (some 69) (getPitchClassCandidates 9 57 79) 58 = 57 ∧
    updateAnchor (some 57) (getPitchClassCandidates 9 57 79) 58 = 57 := by
  have h := anchor_hysteresis 9 57 79 58
  have hc : getPitchClassCandidates 9 57 79 = [57, 69] := by decide
  have habs1 : |(58 : ℝ) - ((57 : ℤ) : ℝ)| = 1 := by
    rw [show (58 : ℝ) - ((57 : ℤ) : ℝ) = 1 by push_cast; ring, abs_one]
  have habs2 : |(58 : ℝ) - ((69 : ℤ) : ℝ)| = 11 := by
    rw [show (58 : ℝ) - ((69 : ℤ) : ℝ) = -11 by push_cast; ring, abs_neg]
    norm_num
  have hbest : closestCandidate (58 : ℝ) (getPitchClassCandidates 9 57 79) = 57 := by
    rw [hc]
    show closestCandidate (58 : ℝ) [57, 69] = 57
    simp only [closestCandidate, List.foldl_cons, List.foldl_nil]
    rw [if_neg (by
      rw [show ((69 : ℤ) : ℝ) - 58 = 11 by push_cast; ring,
        show ((57 : ℤ) : ℝ) - 58 = -1 by push_cast; ring, abs_neg, abs_one]
      norm_num)]
  refine ⟨h.1, ?_, ?_⟩
  · have h3 := h.2.2.1 69 (by rw [hc]; decide) ?_
    · rw [h3, hbest]
    · rw [hbest]
      rw [show ((58 : ℝ) - ((57 : ℤ) : ℝ)) * 100 = 100 by push_cast; ring,
        show ((58 : ℝ) - ((69 : ℤ) : ℝ)) * 100 = -1100 by push_cast; ring, abs_neg]
      norm_num
  · have h4 := h.2.2.2 57 (by rw [hc]; decide) ?_
    · exact h4
    · rw [hbest]
      norm_num

/-- Witness for C3: an out-of-tune call resets, a succeeded streak does not
fire again, and the first call reaching the duration fires. -/
theorem hold_timer_witness :
    HoldTimer.update ⟨some 0, true⟩ false 500 1000 = (HoldTimer.init, ⟨0, 0, false, false⟩) ∧
    (HoldTimer.update ⟨some 0, true⟩ true 1200 1000).2.justSucceeded = false ∧
    (HoldTimer.update ⟨some 0, false⟩ true 1000 1000).2.justSucceeded = true := by
  have h := hold_timer_one_shot_per_streak
  refine ⟨h.1 _ _ _, (h.2.1 ⟨some 0, true⟩ 1200 1000 rfl).1, ?_⟩
  have h3 := (h.2.2.1 ⟨some 0, false⟩ 1000 1000 rfl).1
  exact h3.2 (by rw [Option.getD_some]; exact le_max_iff.2 (Or.inr (by norm_num)))

/-- Inverting a successful estimate: whenever the estimator returns a
result carrying a frequency, the scan found a nonnegative lag, the
refined lag is positive, and the frequency is sampleRate over the refined
lag and nonzero. -/
theorem detect_frequency_some_inv (buffer : List ℚ) (sampleRate minHz maxHz : ℚ)
    (r : AutocorrelationResult) (f : ℚ)
    (h : detectPitchAutocorrelation buffer sampleRate minHz maxHz = some r)
    (hf : r.frequencyHz = some f) :
    0 ≤ (bestPairOf buffer sampleRate minHz maxHz).1 ∧
    0 < refinedLagOf buffer sampleRate minHz maxHz ∧
    f = sampleRate / refinedLagOf buffer sampleRate minHz maxHz ∧
    f ≠ 0 := by
  have hnull : ∀ (hsame : some (⟨none, 0⟩ : AutocorrelationResult) = some r), False := by
    intro hsame
    rw [← Option.some_inj.mp hsame] at hf
    exact absurd hf (by simp)
  simp only [detectPitchAutocorrelation] at h
  by_cases h1 : maxLagOf sampleRate minHz ≤ minLagOf sampleRate maxHz ∨
      (buffer.length : ℤ) ≤ maxLagOf sampleRate minHz + 2
  · rw [if_pos h1] at h
    exact (hnull h).elim
  · rw [if_neg h1] at h
    by_cases h1t : maxLagOf sampleRate minHz + 2 < 0
    · rw [if_pos h1t] at h
      exact absurd h (by simp)
    · rw [if_neg h1t] at h
      by_cases h1m : minLagOf sampleRate maxHz < 0
      · rw [if_pos h1m] at h
        exact (hnull h).elim
      · rw [if_neg h1m] at h
        by_cases h2 : (bestPairOf buffer sampleRate minHz maxHz).1 < 0
        · rw [if_pos h2] at h
          exact (hnull h).elim
        · rw [if_neg h2] at h
          by_cases h3 : (0 : ℚ) < refinedLagOf buffer sampleRate minHz maxHz
          · rw [if_pos h3] at h
            by_cases h4 : (some (sampleRate / refinedLagOf buffer sampleRate minHz maxHz)
                  = (none : Option ℚ)) ∨
                some (sampleRate / refinedLagOf buffer sampleRate minHz maxHz) = some (0 : ℚ)
            · rw [if_pos h4] at h
              exact (hnull h).elim
            · rw [if_neg h4] at h
              have hr : r = ⟨some (sampleRate / refinedLagOf buffer sampleRate minHz maxHz),
                  max 0 (min 1 (1 - (bestPairOf buffer sampleRate minHz maxHz).2))⟩ :=
                (Option.some_inj.mp h).symm
              rw [hr] at hf
              have hfv : sampleRate / refinedLagOf buffer sampleRate minHz maxHz = f := by
                simpa using hf
              refine ⟨not_lt.1 h2, h3, hfv.symm, ?_⟩
              intro hf0
              exact h4 (Or.inr (by rw [hfv, hf0]))
          · rw [if_neg h3, if_pos (Or.inl rfl)] at h
            exact (hnull h).elim

/-- Evaluating the estimator on the periodic block [0,1,2,0,1,2,0] at
sample rate 4 with search band [1, 4] Hz: the scan selects lag 2, the
parabolic refinement lands at 61/42, and the reported frequency is
4 / (61/42) = 168/61 with clarity 1/23. -/
theorem detect_on_sample_block :
    bestPairOf [0, 1, 2, 0, 1, 2, 0] 4 1 4 = (2, 22 / 23) ∧
    refinedLagOf [0, 1, 2, 0, 1, 2, 0] 4 1 4 = 61 / 42 ∧
    detectPitchAutocorrelation [0, 1, 2, 0, 1, 2, 0] 4 1 4 = some ⟨some (168 / 61), 1 / 23⟩ := by
  have hd1 : differencesAt [0, 1, 2, 0, 1, 2, 0] 1 = 12 := by
    have h : differencesAt [0, 1, 2, 0, 1, 2, 0] 1 =
        ((0 : ℚ) - 1) ^ 2 + ((1 - 2) ^ 2 + ((2 - 0) ^ 2 +
          ((0 - 1) ^ 2 + ((1 - 2) ^ 2 + ((2 - 0) ^ 2 + 0))))) := rfl
    rw [h]; norm_num
  have hd2 : differencesAt [0, 1, 2, 0, 1, 2, 0] 2 = 11 := by
    have h : differencesAt [0, 1, 2, 0, 1, 2, 0] 2 =
        ((0 : ℚ) - 2) ^ 2 + ((1 - 0) ^ 2 + ((2 - 1) ^ 2 +
          ((0 - 2) ^ 2 + ((1 - 0) ^ 2 + 0)))) := rfl
    rw [h]; norm_num
  have hd3 : differencesAt [0, 1, 2, 0, 1, 2, 0] 3 = 0 := by
    have h : differencesAt [0, 1, 2, 0, 1, 2, 0] 3 =
        ((0 : ℚ) - 0) ^ 2 + ((1 - 1) ^ 2 + ((2 - 2) ^ 2 + ((0 - 0) ^ 2 + 0))) := rfl
    rw [h]; norm_num
  have hr1 : runningAt [0, 1, 2, 0, 1, 2, 0] 1 1 = 12 := by
    have h : runningAt [0, 1, 2, 0, 1, 2, 0] 1 1 = differencesAt [0, 1, 2, 0, 1, 2, 0] 1 + 0 := rfl
    rw [h, hd1]; norm_num
  have hr2 : runningAt [0, 1, 2, 0, 1, 2, 0] 1 2 = 23 := by
    have h : runningAt [0, 1, 2, 0, 1, 2, 0] 1 2 =
        differencesAt [0, 1, 2, 0, 1, 2, 0] 1 + (differencesAt [0, 1, 2, 0, 1, 2, 0] 2 + 0) := rfl
    rw [h, hd1, hd2]; norm_num
  have hr3 : runningAt [0, 1, 2, 0, 1, 2, 0] 1 3 = 23 := by
    have h : runningAt [0, 1, 2, 0, 1, 2, 0] 1 3 =
        differencesAt [0, 1, 2, 0, 1, 2, 0] 1 + (differencesAt [0, 1, 2, 0, 1, 2, 0] 2 +
          (differencesAt [0, 1, 2, 0, 1, 2, 0] 3 + 0)) := rfl
    rw [h, hd1, hd2, hd3]; norm_num
  have hcm1 : cmndAt [0, 1, 2, 0, 1, 2, 0] 1 4 1 = 1 := by
    simp only [cmndAt]
    rw [if_pos (by norm_num : (1 : ℤ) ≤ 1 ∧ (1 : ℤ) ≤ 4), hr1,
      if_pos (by norm_num : (0 : ℚ) < 12), hd1]
    norm_num
  have hcm2 : cmndAt [0, 1, 2, 0, 1, 2, 0] 1 4 2 = 22 / 23 := by
    simp only [cmndAt]
    rw [if_pos (by norm_num : (1 : ℤ) ≤ 2 ∧ (2 : ℤ) ≤ 4), hr2,
      if_pos (by norm_num : (0 : ℚ) < 23), hd2]
    norm_num
  have hcm3 : cmndAt [0, 1, 2, 0, 1, 2, 0] 1 4 3 = 0 := by
    simp only [cmndAt]
    rw [if_pos (by norm_num : (1 : ℤ) ≤ 3 ∧ (3 : ℤ) ≤ 4), hr3,
      if_pos (by norm_num : (0 : ℚ) < 23), hd3]
    norm_num
  have hminLag : minLagOf 4 4 = 1 := by norm_num [minLagOf]
  have hmaxLag : maxLagOf 4 1 = 4 := by norm_num [maxLagOf]
  have hscan : scanBest (cmndAt [0, 1, 2, 0, 1, 2, 0] 1 4) 1 2 (-1, 1) = (2, 22 / 23) := by
    rw [show (2 : ℤ) = 1 + 1 from rfl]
    simp only [scanBest]
    rw [show (1 : ℤ) + 1 - 1 = 1 from rfl, show (1 : ℤ) + 1 + 1 = 3 from rfl,
      show (1 : ℤ) + 1 = 2 from rfl, hcm2, hcm3]
    rw [if_neg (by intro h; norm_num at h)]
    rw [if_pos (by norm_num : (22 / 23 : ℚ) < 1)]
  have hbp : bestPairOf [0, 1, 2, 0, 1, 2, 0] 4 1 4 = (2, 22 / 23) := by
    simp only [bestPairOf]
    rw [hminLag, hmaxLag]
    exact hscan
  have hrl : refinedLagOf [0, 1, 2, 0, 1, 2, 0] 4 1 4 = 61 / 42 := by
    simp only [refinedLagOf]
    rw [hminLag, hmaxLag, hbp]
    simp only
    rw [show (2 : ℤ) - 1 = 1 from rfl, show (2 : ℤ) + 1 = 3 from rfl, hcm1, hcm2, hcm3]
    rw [if_neg (by norm_num)]
    rw [show min (1 : ℚ) (1 / 2 * (1 - 0) / (1 - 2 * (22 / 23) + 0)) =
        1 / 2 * (1 - 0) / (1 - 2 * (22 / 23) + 0) from min_eq_right (by norm_num)]
    rw [show max (-1 : ℚ) (1 / 2 * (1 - 0) / (1 - 2 * (22 / 23) + 0)) =
        1 / 2 * (1 - 0) / (1 - 2 * (22 / 23) + 0) from max_eq_right (by norm_num)]
    norm_num
  refine ⟨hbp, hrl, ?_⟩
  simp only [detectPitchAutocorrelation]
  rw [hminLag, hmaxLag]
  rw [if_neg (by norm_num), if_neg (by norm_num : ¬(4 : ℤ) + 2 < 0),
    if_neg (by norm_num : ¬(1 : ℤ) < 0)]
  rw [hbp]
  rw [if_neg (by norm_num : ¬((2 : ℤ), (22 / 23 : ℚ)).1 < 0)]
  rw [hrl]
  rw [if_pos (by norm_num : (0 : ℚ) < 61 / 42)]
  have hne : ¬(some ((4 : ℚ) / (61 / 42)) = none ∨ some ((4 : ℚ) / (61 / 42)) = some 0) := by
    rintro (h | h)
    · exact Option.some_ne_none _ h
    · rw [Option.some.injEq] at h
      norm_num at h
  rw [if_neg hne]
  show some (AutocorrelationResult.mk (some ((4 : ℚ) / (61 / 42))) (max 0 (min 1 (1 - 22 / 23))))
    = some ⟨some (168 / 61), 1 / 23⟩
  have hfreq : (4 : ℚ) / (61 / 42) = 168 / 61 := by norm_num
  have hclar : max (0 : ℚ) (min 1 (1 - 22 / 23)) = 1 / 23 := by
    rw [show (1 : ℚ) - 22 / 23 = 1 / 23 by norm_num]
    rw [min_eq_right (by norm_num), max_eq_right (by norm_num)]
  rw [hfreq, hclar]

/-- C6 (amended): whenever the estimator selects an integer lag and
returns a frequency, the parabolic refinement shifts the chosen lag by at
most one full lag in either direction, and the returned frequency equals
sampleRate divided by the refined lag. -/
theorem refined_lag_shift_at_most_one (buffer : List ℚ) (sampleRate minHz maxHz : ℚ)
    (r : AutocorrelationResult) (f : ℚ)
    (h : detectPitchAutocorrelation buffer sampleRate minHz maxHz = some r)
    (hf : r.frequencyHz = some f) :
    0 ≤ (bestPairOf buffer sampleRate minHz maxHz).1 ∧
    |refinedLagOf buffer sampleRate minHz maxHz -
      ((bestPairOf buffer sampleRate minHz maxHz).1 : ℚ)| ≤ 1 ∧
    f = sampleRate / refinedLagOf buffer sampleRate minHz maxHz := by
  have hinv := detect_frequency_some_inv buffer sampleRate minHz maxHz r f h hf
  refine ⟨hinv.1, ?_, hinv.2.2.1⟩
  simp only [refinedLagOf]
  rw [add_sub_cancel_left]
  exact abs_le.2 ⟨le_max_left _ _, max_le (by norm_num) (min_le_left _ _)⟩

/-- C6 counterexample: on the block [0,1,2,0,1,2,0] at sample rate 4 with
band [1,4] Hz the estimator returns a frequency, yet the parabolic
refinement moves the selected lag 2 to 61/42, a shift of 23/42 of a lag,
which is more than half a lag. -/
theorem refined_lag_shift_exceeds_half_lag :
    detectPitchAutocorrelation [0, 1, 2, 0, 1, 2, 0] 4 1 4 = some ⟨some (168 / 61), 1 / 23⟩ ∧
    (bestPairOf [0, 1, 2, 0, 1, 2, 0] 4 1 4).1 = 2 ∧
    refinedLagOf [0, 1, 2, 0, 1, 2, 0] 4 1 4 = 61 / 42 ∧
    ¬|refinedLagOf [0, 1, 2, 0, 1, 2, 0] 4 1 4 -
        ((bestPairOf [0, 1, 2, 0, 1, 2, 0] 4 1 4).1 : ℚ)| ≤ 1 / 2 := by
  obtain ⟨hbp, hrl, hdet⟩ := detect_on_sample_block
  refine ⟨hdet, by rw [hbp], hrl, ?_⟩
  rw [hrl, hbp]
  rw [show (61 / 42 : ℚ) - (((2 : ℤ), (22 / 23 : ℚ)).1 : ℚ) = -(23 / 42) by push_cast; ring,
    abs_neg, abs_of_pos (by norm_num)]
  norm_num

/-- Witness for the amended C6 on the same concrete block. -/
theorem refined_lag_shift_at_most_one_witness :
    0 ≤ (bestPairOf [0, 1, 2, 0, 1, 2, 0] 4 1 4).1 ∧
    |refinedLagOf [0, 1, 2, 0, 1, 2, 0] 4 1 4 -
      ((bestPairOf [0, 1, 2, 0, 1, 2, 0] 4 1 4).1 : ℚ)| ≤ 1 ∧
    (168 / 61 : ℚ) = 4 / refinedLagOf [0, 1, 2, 0, 1, 2, 0] 4 1 4 :=
  refined_lag_shift_at_most_one [0, 1, 2, 0, 1, 2, 0] 4 1 4 ⟨some (168 / 61), 1 / 23⟩ (168 / 61)
    detect_on_sample_block.2.2 rfl

/-- C5 (amended): the estimator returns without throwing in every
degenerate case the specification lists, with the null estimate and a
clarity inside [0, 1] — except exactly when both early guards pass and
the allocation length maxLag + 2 is negative, where the source throws a
RangeError from new Float32Array. -/
theorem estimator_throw_iff_and_null_cases :
    (∀ (buffer : List ℚ) (sampleRate minHz maxHz : ℚ),
      maxLagOf sampleRate minHz ≤ minLagOf sampleRate maxHz →
      detectPitchAutocorrelation buffer sampleRate minHz maxHz = some ⟨none, 0⟩) ∧
    (∀ (buffer : List ℚ) (sampleRate minHz maxHz : ℚ),
      (buffer.length : ℤ) ≤ maxLagOf sampleRate minHz + 2 →
      detectPitchAutocorrelation buffer sampleRate minHz maxHz = some ⟨none, 0⟩) ∧
    (∀ (buffer : List ℚ) (sampleRate minHz maxHz : ℚ),
      detectPitchAutocorrelation buffer sampleRate minHz maxHz = none ↔
        (¬maxLagOf sampleRate minHz ≤ minLagOf sampleRate maxHz ∧
          ¬(buffer.length : ℤ) ≤ maxLagOf sampleRate minHz + 2 ∧
          maxLagOf sampleRate minHz + 2 < 0)) ∧
    (∀ (buffer : List ℚ) (sampleRate minHz maxHz : ℚ) (r : AutocorrelationResult),
      (bestPairOf buffer sampleRate minHz maxHz).1 < 0 →
      detectPitchAutocorrelation buffer sampleRate minHz maxHz = some r →
      r = ⟨none, 0⟩) ∧
    (∀ (buffer : List ℚ) (sampleRate minHz maxHz : ℚ) (r : AutocorrelationResult),
      detectPitchAutocorrelation buffer sampleRate minHz maxHz = some r →
      r.frequencyHz = none → r = ⟨none, 0⟩) ∧
    (∀ (buffer : List ℚ) (sampleRate minHz maxHz : ℚ) (r : AutocorrelationResult),
      detectPitchAutocorrelation buffer sampleRate minHz maxHz = some r →
      0 ≤ r.clarity ∧ r.clarity ≤ 1) := by
  have hshape : ∀ (buffer : List ℚ) (sampleRate minHz maxHz : ℚ),
      detectPitchAutocorrelation buffer sampleRate minHz maxHz = none ∨
      detectPitchAutocorrelation buffer sampleRate minHz maxHz = some ⟨none, 0⟩ ∨
      ∃ f, f ≠ 0 ∧ detectPitchAutocorrelation buffer sampleRate minHz maxHz =
        some ⟨some f, max 0 (min 1 (1 - (bestPairOf buffer sampleRate minHz maxHz).2))⟩ := by
    intro buffer sampleRate minHz maxHz
    simp only [detectPitchAutocorrelation]
    by_cases h1 : maxLagOf sampleRate minHz ≤ minLagOf sampleRate maxHz ∨
        (buffer.length : ℤ) ≤ maxLagOf sampleRate minHz + 2
    · rw [if_pos h1]; exact Or.inr (Or.inl rfl)
    · rw [if_neg h1]
      by_cases h1t : maxLagOf sampleRate minHz + 2 < 0
      · rw [if_pos h1t]; exact Or.inl rfl
      · rw [if_neg h1t]
        by_cases h1m : minLagOf sampleRate maxHz < 0
        · rw [if_pos h1m]; exact Or.inr (Or.inl rfl)
        · rw [if_neg h1m]
          by_cases h2 : (bestPairOf buffer sampleRate minHz maxHz).1 < 0
          · rw [if_pos h2]; exact Or.inr (Or.inl rfl)
          · rw [if_neg h2]
            by_cases h3 : (0 : ℚ) < refinedLagOf buffer sampleRate minHz maxHz
            · rw [if_pos h3]
              by_cases h4 : (some (sampleRate / refinedLagOf buffer sampleRate minHz maxHz)
                    = (none : Option ℚ)) ∨
                  some (sampleRate / refinedLagOf buffer sampleRate minHz maxHz) = some (0 : ℚ)
              · rw [if_pos h4]; exact Or.inr (Or.inl rfl)
              · rw [if_neg h4]
                refine Or.inr (Or.inr
                  ⟨sampleRate / refinedLagOf buffer sampleRate minHz maxHz, ?_, rfl⟩)
                intro h0
                exact h4 (Or.inr (by rw [h0]))
            · rw [if_neg h3, if_pos (Or.inl rfl)]; exact Or.inr (Or.inl rfl)
  have hguard : ∀ (buffer : List ℚ) (sampleRate minHz maxHz : ℚ),
      maxLagOf sampleRate minHz ≤ minLagOf sampleRate maxHz ∨
      (buffer.length : ℤ) ≤ maxLagOf sampleRate minHz + 2 →
      detectPitchAutocorrelation buffer sampleRate minHz maxHz = some ⟨none, 0⟩ := by
    intro buffer sampleRate minHz maxHz h1
    simp only [detectPitchAutocorrelation]
    rw [if_pos h1]
  refine ⟨fun b sr mi ma h => hguard b sr mi ma (Or.inl h),
    fun b sr mi ma h => hguard b sr mi ma (Or.inr h), ?_, ?_, ?_, ?_⟩
  · intro buffer sampleRate minHz maxHz
    constructor
    · intro hnone
      by_cases h1 : maxLagOf sampleRate minHz ≤ minLagOf sampleRate maxHz ∨
          (buffer.length : ℤ) ≤ maxLagOf sampleRate minHz + 2
      · rw [hguard buffer sampleRate minHz maxHz h1] at hnone
        exact absurd hnone (by simp)
      · rw [not_or] at h1
        refine ⟨h1.1, h1.2, ?_⟩
        by_contra h1t
        rcases hshape buffer sampleRate minHz maxHz with hs | hs | ⟨f, _, hs⟩
        · simp only [detectPitchAutocorrelation] at hs
          rw [if_neg (not_or.mpr h1), if_neg h1t] at hs
          by_cases h1m : minLagOf sampleRate maxHz < 0
          · rw [if_pos h1m] at hs
            exact absurd hs (by simp)
          · rw [if_neg h1m] at hs
            by_cases h2 : (bestPairOf buffer sampleRate minHz maxHz).1 < 0
            · rw [if_pos h2] at hs
              exact absurd hs (by simp)
            · rw [if_neg h2] at hs
              by_cases h3 : (0 : ℚ) < refinedLagOf buffer sampleRate minHz maxHz
              · rw [if_pos h3] at hs
                by_cases h4 : (some (sampleRate / refinedLagOf buffer sampleRate minHz maxHz)
                      = (none : Option ℚ)) ∨
                    some (sampleRate / refinedLagOf buffer sampleRate minHz maxHz) = some (0 : ℚ)
                · rw [if_pos h4] at hs
                  exact absurd hs (by simp)
                · rw [if_neg h4] at hs
                  exact absurd hs (by simp)
              · rw [if_neg h3, if_pos (Or.inl rfl)] at hs
                exact absurd hs (by simp)
        · rw [hnone] at hs
          exact absurd hs (by simp)
        · rw [hnone] at hs
          exact absurd hs (by simp)
    · rintro ⟨h1, h2, h1t⟩
      simp only [detectPitchAutocorrelation]
      rw [if_neg (not_or.mpr ⟨h1, h2⟩), if_pos h1t]
  · intro buffer sampleRate minHz maxHz r hbl h
    simp only [detectPitchAutocorrelation] at h
    by_cases h1 : maxLagOf sampleRate minHz ≤ minLagOf sampleRate maxHz ∨
        (buffer.length : ℤ) ≤ maxLagOf sampleRate minHz + 2
    · rw [if_pos h1] at h
      exact (Option.some_inj.mp h).symm
    · rw [if_neg h1] at h
      by_cases h1t : maxLagOf sampleRate minHz + 2 < 0
      · rw [if_pos h1t] at h
        exact absurd h (by simp)
      · rw [if_neg h1t] at h
        by_cases h1m : minLagOf sampleRate maxHz < 0
        · rw [if_pos h1m] at h
          exact (Option.some_inj.mp h).symm
        · rw [if_neg h1m, if_pos hbl] at h
          exact (Option.some_inj.mp h).symm
  · intro buffer sampleRate minHz maxHz r h hfreq
    rcases hshape buffer sampleRate minHz maxHz with hs | hs | ⟨f, hf0, hs⟩
    · rw [h] at hs
      exact absurd hs (by simp)
    · rw [h] at hs
      exact Option.some_inj.mp hs
    · rw [h] at hs
      rw [Option.some_inj.mp hs] at hfreq
      exact absurd hfreq (by simp)
  · intro buffer sampleRate minHz maxHz r h
    rcases hshape buffer sampleRate minHz maxHz with hs | hs | ⟨f, hf0, hs⟩
    · rw [h] at hs
      exact absurd hs (by simp)
    · rw [h] at hs
      rw [Option.some_inj.mp hs]
      norm_num
    · rw [h] at hs
      rw [Option.some_inj.mp hs]
      exact ⟨le_max_left _ _, max_le (by norm_num) (min_le_left _ _)⟩

/-- C5 counterexample: at the well-typed input sampleRate 44100, band
[-900, -70] Hz, both guards pass with minLag -630 and maxLag -49, and the
source reaches new Float32Array(-47), which throws a RangeError; the
embedding reports the thrown outcome, refuting the never-throws claim. -/
theorem estimator_throws_on_negative_band :
    minLagOf 44100 (-70) = -630 ∧
    maxLagOf 44100 (-900) = -49 ∧
    detectPitchAutocorrelation [] 44100 (-900) (-70) = none := by
  have h1 : minLagOf 44100 (-70) = -630 := by norm_num [minLagOf]
  have h2 : maxLagOf 44100 (-900) = -49 := by norm_num [maxLagOf]
  refine ⟨h1, h2, ?_⟩
  simp only [detectPitchAutocorrelation]
  rw [h1, h2]
  rw [if_neg (by norm_num), if_pos (by norm_num : (-49 : ℤ) + 2 < 0)]

/-- The estimator's early guard: with a degenerate lag range or a block
too short for the lag span the result is the null estimate. -/
theorem detect_null_of_guard (buffer : List ℚ) (sampleRate minHz maxHz : ℚ)
    (h : maxLagOf sampleRate minHz ≤ minLagOf sampleRate maxHz ∨
      (buffer.length : ℤ) ≤ maxLagOf sampleRate minHz + 2) :
    detectPitchAutocorrelation buffer sampleRate minHz maxHz = some ⟨none, 0⟩ := by
  simp only [detectPitchAutocorrelation]
  rw [if_pos h]

/-- Witness for the amended C5: a collapsed frequency band and a
two-sample block each return the null estimate without throwing, its
clarity sits inside [0, 1], and the negative band throws. -/
theorem estimator_null_cases_witness :
    detectPitchAutocorrelation [] 44100 900 900 = some ⟨none, 0⟩ ∧
    detectPitchAutocorrelation [1, 1] 44100 70 900 = some ⟨none, 0⟩ ∧
    (0 ≤ ((⟨none, 0⟩ : AutocorrelationResult)).clarity ∧
      ((⟨none, 0⟩ : AutocorrelationResult)).clarity ≤ 1) ∧
    detectPitchAutocorrelation [] 44100 (-900) (-70) = none := by
  have h := estimator_throw_iff_and_null_cases
  refine ⟨h.1 [] 44100 900 900 (by norm_num [minLagOf, maxLagOf]),
    h.2.1 [1, 1] 44100 70 900 (by norm_num [maxLagOf]),
    h.2.2.2.2.2 [1, 1] 44100 70 900 ⟨none, 0⟩
      (h.2.1 [1, 1] 44100 70 900 (by norm_num [maxLagOf])),
    (h.2.2.1 [] 44100 (-900) (-70)).2 (by norm_num [minLagOf, maxLagOf])⟩

/-- C1: each ingested block is classified by the priority chain: too quiet
below the RMS gate; otherwise no-pitch when the estimator reports no
frequency; otherwise low-confidence, with the measured frequency withheld,
when clarity is below threshold; otherwise listening with the measured
frequency and clarity retained. -/
theorem frame_classification_priority (settings : TrackerSettings) (t : ℚ)
    (buffer : List ℚ) (sampleRate : ℚ) :
    (computeRms buffer < settings.rmsThreshold →
      onAudioProcess settings t buffer sampleRate =
        some ⟨t, MicStatus.tooQuiet, none, 0, computeRms buffer⟩) ∧
    (∀ r : AutocorrelationResult, ¬computeRms buffer < settings.rmsThreshold →
      detectPitchAutocorrelation buffer sampleRate 70 900 = some r →
      r.frequencyHz = none →
      onAudioProcess settings t buffer sampleRate =
        some ⟨t, MicStatus.noPitch, none, r.clarity, computeRms buffer⟩) ∧
    (∀ (r : AutocorrelationResult) (f : ℚ), ¬computeRms buffer < settings.rmsThreshold →
      detectPitchAutocorrelation buffer sampleRate 70 900 = some r →
      r.frequencyHz = some f →
      r.clarity < settings.clarityThreshold →
      onAudioProcess settings t buffer sampleRate =
        some ⟨t, MicStatus.lowConfidence, none, r.clarity, computeRms buffer⟩) ∧
    (∀ (r : AutocorrelationResult) (f : ℚ), ¬computeRms buffer < settings.rmsThreshold →
      detectPitchAutocorrelation buffer sampleRate 70 900 = some r →
      r.frequencyHz = some f →
      ¬r.clarity < settings.clarityThreshold →
      onAudioProcess settings t buffer sampleRate =
        some ⟨t, MicStatus.listening, some f, r.clarity, computeRms buffer⟩) := by
  refine ⟨?_, ?_, ?_, ?_⟩
  · intro h
    simp only [onAudioProcess]
    rw [if_pos h]
  · intro r h hdet hn
    simp only [onAudioProcess]
    rw [if_neg h]
    simp only [hdet]
    rw [if_pos (Or.inl hn)]
  · intro r f h hdet hf hc
    have hne : f ≠ 0 := (detect_frequency_some_inv buffer sampleRate 70 900 r f hdet hf).2.2.2
    have hnotfalsy : ¬(r.frequencyHz = none ∨ r.frequencyHz = some 0) := by
      rintro (h0 | h0)
      · rw [hf] at h0
        exact absurd h0 (by simp)
      · rw [hf, Option.some.injEq] at h0
        exact hne h0
    simp only [onAudioProcess]
    rw [if_neg h]
    simp only [hdet]
    rw [if_neg hnotfalsy, if_pos hc]
  · intro r f h hdet hf hc
    have hne : f ≠ 0 := (detect_frequency_some_inv buffer sampleRate 70 900 r f hdet hf).2.2.2
    have hnotfalsy : ¬(r.frequencyHz = none ∨ r.frequencyHz = some 0) := by
      rintro (h0 | h0)
      · rw [hf] at h0
        exact absurd h0 (by simp)
      · rw [hf, Option.some.injEq] at h0
        exact hne h0
    simp only [onAudioProcess]
    rw [if_neg h]
    simp only [hdet]
    rw [if_neg hnotfalsy, if_neg hc, hf]

/-- Witness for C1: an all-zero block is classified too quiet, and a loud
block that is far too short for the lag span is classified no-pitch. -/
theorem frame_classification_witness :
    onAudioProcess ⟨1 / 100, 1 / 2, 200⟩ 5 [0, 0] 44100 =
      some ⟨5, MicStatus.tooQuiet, none, 0, computeRms [0, 0]⟩ ∧
    onAudioProcess ⟨1 / 100, 1 / 2, 200⟩ 5 [1, 1] 44100 =
      some ⟨5, MicStatus.noPitch, none, 0, computeRms [1, 1]⟩ := by
  have hrms0 : computeRms [0, 0] = 0 := by
    simp only [computeRms, List.map_cons, List.map_nil, List.sum_cons, List.sum_nil,
      List.length_cons, List.length_nil]
    push_cast
    norm_num [Real.sqrt_zero]
  have hrms1 : computeRms [1, 1] = 1 := by
    simp only [computeRms, List.map_cons, List.map_nil, List.sum_cons, List.sum_nil,
      List.length_cons, List.length_nil]
    push_cast
    norm_num [show ((2 : ℝ) / 2) = 1 by norm_num, Real.sqrt_one]
  have hdet : detectPitchAutocorrelation [1, 1] 44100 70 900 = some ⟨none, 0⟩ :=
    detect_null_of_guard [1, 1] 44100 70 900 (Or.inr (by norm_num [maxLagOf]))
  constructor
  · exact (frame_classification_priority ⟨1 / 100, 1 / 2, 200⟩ 5 [0, 0] 44100).1
      (by rw [hrms0]; norm_num)
  · exact (frame_classification_priority ⟨1 / 100, 1 / 2, 200⟩ 5 [1, 1] 44100).2.1
      ⟨none, 0⟩ (by rw [hrms1]; norm_num) hdet rfl

/-- C2: getSmoothedFrame returns the idle-like frame carrying the latest
status when no frame is in the window; the last in-window frame's status,
clarity and rms with null pitch fields when no in-window frame carries a
frequency; and otherwise the median of the in-window frequencies with
note-number, pitch-class and cents derived from that single median through
the pitch-math functions, and clarity and rms averaged over the frames
that carried a frequency. -/
theorem smoothed_frame_selection (st : TrackerState) (now : ℚ) (tp : ℤ) :
    (recentOf st now = [] →
      getSmoothedFrame st now tp =
        ⟨now, st.latest.status, none, 0, 0, none, none, none⟩) ∧
    (recentOf st now ≠ [] → validOf st now = [] →
      getSmoothedFrame st now tp =
        ⟨now,
          ((recentOf st now).getD ((recentOf st now).length - 1)
            ⟨0, MicStatus.idle, none, 0, 0⟩).status, none,
          ((recentOf st now).getD ((recentOf st now).length - 1)
            ⟨0, MicStatus.idle, none, 0, 0⟩).clarity,
          ((recentOf st now).getD ((recentOf st now).length - 1)
            ⟨0, MicStatus.idle, none, 0, 0⟩).rms,
          none, none, none⟩) ∧
    (validOf st now ≠ [] →
      getSmoothedFrame st now tp =
        ⟨now, MicStatus.listening,
          some (median ((validOf st now).map (fun f => f.frequencyHz.getD 0))),
          ((validOf st now).map RawPitchFrame.clarity).sum / ((validOf st now).length : ℚ),
          ((validOf st now).map RawPitchFrame.rms).sum / ((validOf st now).length : ℝ),
          some (analyzePitch ((median ((validOf st now).map (fun f => f.frequencyHz.getD 0)) : ℚ) : ℝ)).midi,
          some (analyzePitch ((median ((validOf st now).map (fun f => f.frequencyHz.getD 0)) : ℚ) : ℝ)).pitchClass,
          some (centsFromNearestTarget
            (analyzePitch ((median ((validOf st now).map (fun f => f.frequencyHz.getD 0)) : ℚ) : ℝ)).midi
            tp)⟩) := by
  refine ⟨?_, ?_, ?_⟩
  · intro hr
    simp only [getSmoothedFrame]
    rw [if_pos (by rw [hr]; rfl)]
  · intro hr hv
    simp only [getSmoothedFrame]
    rw [if_neg (by simpa [List.length_eq_zero] using hr),
      if_pos (by rw [hv]; rfl)]
  · intro hv
    have hr : recentOf st now ≠ [] := by
      intro hre
      apply hv
      simp only [validOf, hre, List.filter_nil]
    simp only [getSmoothedFrame]
    rw [if_neg (by simpa [List.length_eq_zero] using hr),
      if_neg (by simpa [List.length_eq_zero] using hv)]

/-- Witness for C2: two in-window frames at 440 Hz and 442 Hz smooth to
the median 441 Hz with averaged clarity. -/
theorem smoothed_frame_witness :
    (getSmoothedFrame
        ⟨⟨0, MicStatus.idle, none, 0, 0⟩,
          [⟨0, MicStatus.listening, some 440, 9 / 10, 0⟩,
            ⟨100, MicStatus.listening, some 442, 7 / 10, 0⟩],
          ⟨1 / 100, 1 / 2, 200⟩⟩ 150 9).status = MicStatus.listening ∧
    (getSmoothedFrame
        ⟨⟨0, MicStatus.idle, none, 0, 0⟩,
          [⟨0, MicStatus.listening, some 440, 9 / 10, 0⟩,
            ⟨100, MicStatus.listening, some 442, 7 / 10, 0⟩],
          ⟨1 / 100, 1 / 2, 200⟩⟩ 150 9).frequencyHz = some 441 ∧
    (getSmoothedFrame
        ⟨⟨0, MicStatus.idle, none, 0, 0⟩,
          [⟨0, MicStatus.listening, some 440, 9 / 10, 0⟩,
            ⟨100, MicStatus.listening, some 442, 7 / 10, 0⟩],
          ⟨1 / 100, 1 / 2, 200⟩⟩ 150 9).clarity = 4 / 5 := by
  have hval : validOf
      ⟨⟨0, MicStatus.idle, none, 0, 0⟩,
        [⟨0, MicStatus.listening, some 440, 9 / 10, 0⟩,
          ⟨100, MicStatus.listening, some 442, 7 / 10, 0⟩],
        ⟨1 / 100, 1 / 2, 200⟩⟩ 150 =
      [⟨0, MicStatus.listening, some 440, 9 / 10, 0⟩,
        ⟨100, MicStatus.listening, some 442, 7 / 10, 0⟩] := by
    simp only [validOf, recentOf, List.filter_cons, List.filter_nil, decide_eq_true_eq]
    rw [if_pos (by norm_num : (150 : ℚ) - 200 ≤ 0), if_pos (by norm_num : (150 : ℚ) - 200 ≤ 100)]
    simp only [List.filter_cons, List.filter_nil, decide_eq_true_eq]
    rw [if_pos (by simp : (some (440 : ℚ) : Option ℚ) ≠ none),
      if_pos (by simp : (some (442 : ℚ) : Option ℚ) ≠ none)]
  have h := (smoothed_frame_selection
      ⟨⟨0, MicStatus.idle, none, 0, 0⟩,
        [⟨0, MicStatus.listening, some 440, 9 / 10, 0⟩,
          ⟨100, MicStatus.listening, some 442, 7 / 10, 0⟩],
        ⟨1 / 100, 1 / 2, 200⟩⟩ 150 9).2.2 (by rw [hval]; simp)
  rw [h, hval]
  have hmap : ([⟨0, MicStatus.listening, some 440, 9 / 10, 0⟩,
      (⟨100, MicStatus.listening, some 442, 7 / 10, 0⟩ : RawPitchFrame)]).map
        (fun f => f.frequencyHz.getD 0) = [440, 442] := by
    simp only [List.map_cons, List.map_nil, Option.getD_some]
  rw [hmap]
  have hmed : median [440, 442] = 441 := by
    have hsort : sortQ [440, 442] = [440, 442] :=
      List.mergeSort_of_sorted (by simp; norm_num)
    simp only [median, sortQ] at *
    rw [hsort]
    norm_num [List.getD]
  refine ⟨rfl, by rw [hmed], ?_⟩
  show ((9 : ℚ) / 10 + (7 / 10 + 0)) / ((2 : ℕ) : ℚ) = 4 / 5
  norm_num

theorem sortQ_sorted (l : List ℚ) : (sortQ l).Sorted (· ≤ ·) := by
  have h := @List.sorted_mergeSort ℚ
    (fun a b : ℚ => decide (a ≤ b))
    (fun a b c hab hbc => by
      simp only [decide_eq_true_eq] at *
      exact le_trans hab hbc)
    (fun a b => by
      simp only [Bool.or_eq_true, decide_eq_true_eq]
      exact le_total a b)
    l
  exact h.imp (fun hab => by simpa using hab)

theorem sortQ_perm (l : List ℚ) : (sortQ l).Perm l :=
  List.mergeSort_perm l _

theorem sortQ_length (l : List ℚ) : (sortQ l).length = l.length :=
  (sortQ_perm l).length_eq

theorem sortQ_countP (p : ℚ → Bool) (l : List ℚ) :
    (sortQ l).countP p = l.countP p :=
  List.Perm.countP_eq p (sortQ_perm l)

/-- Replacing one element of a list changes the count of any predicate by
at most one in each direction. -/
theorem countP_set_bounds (p : ℚ → Bool) (l : List ℚ) (i : ℕ) (v : ℚ) :
    (l.set i v).countP p ≤ l.countP p + 1 ∧ l.countP p ≤ (l.set i v).countP p + 1 := by
  induction l generalizing i with
  | nil => simp
  | cons a l ih =>
    cases i with
    | zero =>
      simp only [List.set_cons_zero, List.countP_cons]
      constructor <;> (split_ifs <;> omega)
    | succ j =>
      simp only [List.set_cons_succ, List.countP_cons]
      have := ih j
      constructor <;> (split_ifs <;> omega)

/-- In a sorted list, the k-th entry is at most x exactly when more than k
entries are at most x. -/
theorem sorted_getD_le_iff (t : List ℚ) (ht : t.Sorted (· ≤ ·)) (k : ℕ)
    (hk : k < t.length) (x : ℚ) :
    t.getD k 0 ≤ x ↔ k < t.countP (fun y => decide (y ≤ x)) := by
  constructor
  · intro h
    have hsplit := List.countP_append (fun y => decide (y ≤ x)) (t.take (k + 1)) (t.drop (k + 1))
    rw [List.take_append_drop] at hsplit
    have hlen : (t.take (k + 1)).length = k + 1 := by
      rw [List.length_take]
      omega
    have hall : (t.take (k + 1)).countP (fun y => decide (y ≤ x)) = (t.take (k + 1)).length := by
      rw [List.countP_eq_length]
      intro a ha
      obtain ⟨j, hj, rfl⟩ := List.mem_iff_getElem.1 ha
      rw [List.getElem_take]
      have hjk : j ≤ k := by
        rw [hlen] at hj
        omega
      have hjlen : j < t.length := by omega
      simp only [decide_eq_true_eq]
      have hle : t[j] ≤ t.getD k 0 := by
        rw [List.getD_eq_getElem t 0 hk]
        rcases Nat.lt_or_ge j k with hlt | hge
        · have := ht.rel_get_of_lt (a := ⟨j, hjlen⟩) (b := ⟨k, hk⟩) (by simpa using hlt)
          simpa [List.get_eq_getElem] using this
        · have hjk' : j = k := by omega
          subst hjk'
          exact le_rfl
      exact le_trans hle h
    omega
  · intro h
    by_contra hlt
    push_neg at hlt
    have hdrop : (t.drop k).countP (fun y => decide (y ≤ x)) = 0 := by
      rw [List.countP_eq_zero]
      intro a ha
      obtain ⟨j, hj, rfl⟩ := List.mem_iff_getElem.1 ha
      rw [List.getElem_drop]
      simp only [decide_eq_true_eq, not_le]
      have hkj : k + j < t.length := by
        rw [List.length_drop] at hj
        omega
      have hle : t.getD k 0 ≤ t[k + j] := by
        rw [List.getD_eq_getElem t 0 hk]
        rcases Nat.eq_zero_or_pos j with hj0 | hjpos
        · subst hj0
          simp
        · have := ht.rel_get_of_lt (a := ⟨k, hk⟩) (b := ⟨k + j, hkj⟩) (by simp; omega)
          simpa [List.get_eq_getElem] using this
      exact lt_of_lt_of_le hlt hle
    have hsplit := List.countP_append (fun y => decide (y ≤ x)) (t.take k) (t.drop k)
    rw [List.take_append_drop] at hsplit
    have htake := List.countP_le_length (fun y => decide (y ≤ x)) (l := t.take k)
    rw [List.length_take] at htake
    omega

/-- Replacing one element moves each order statistic up by at most one
position of the original sorted list. -/
theorem orderStat_set_upper (xs : List ℚ) (i : ℕ) (v : ℚ) (k : ℕ)
    (hk : k + 1 < xs.length) :
    (sortQ (xs.set i v)).getD k 0 ≤ (sortQ xs).getD (k + 1) 0 := by
  have hslen : (sortQ xs).length = xs.length := sortQ_length xs
  have htlen : (sortQ (xs.set i v)).length = xs.length := by
    rw [sortQ_length, List.length_set]
  have h1 : k + 1 < (sortQ xs).countP
      (fun y => decide (y ≤ (sortQ xs).getD (k + 1) 0)) :=
    (sorted_getD_le_iff (sortQ xs) (sortQ_sorted xs) (k + 1) (by omega) _).1 le_rfl
  rw [sortQ_countP] at h1
  have h2 := countP_set_bounds (fun y => decide (y ≤ (sortQ xs).getD (k + 1) 0)) xs i v
  refine (sorted_getD_le_iff (sortQ (xs.set i v)) (sortQ_sorted _) k (by omega) _).2 ?_
  rw [sortQ_countP]
  omega

/-- Replacing one element moves each order statistic down by at most one
position of the original sorted list. -/
theorem orderStat_set_lower (xs : List ℚ) (i : ℕ) (v : ℚ) (k : ℕ)
    (hk1 : 1 ≤ k) (hk : k < xs.length) :
    (sortQ xs).getD (k - 1) 0 ≤ (sortQ (xs.set i v)).getD k 0 := by
  have hslen : (sortQ xs).length = xs.length := sortQ_length xs
  have htlen : (sortQ (xs.set i v)).length = xs.length := by
    rw [sortQ_length, List.length_set]
  have h1 : k < (sortQ (xs.set i v)).countP
      (fun y => decide (y ≤ (sortQ (xs.set i v)).getD k 0)) :=
    (sorted_getD_le_iff (sortQ (xs.set i v)) (sortQ_sorted _) k (by omega) _).1 le_rfl
  rw [sortQ_countP] at h1
  have h2 := countP_set_bounds (fun y => decide (y ≤ (sortQ (xs.set i v)).getD k 0)) xs i v
  refine (sorted_getD_le_iff (sortQ xs) (sortQ_sorted xs) (k - 1) (by omega) _).2 ?_
  rw [sortQ_countP]
  omega

/-- The median unfolded for a nonempty list. -/
theorem median_eq_of_ne_nil (l : List ℚ) (h : l ≠ []) :
    median l = if l.length % 2 = 0 then
      ((sortQ l).getD (l.length / 2 - 1) 0 + (sortQ l).getD (l.length / 2) 0) / 2
    else (sortQ l).getD (l.length / 2) 0 := by
  have hlen : l.length ≠ 0 := by
    intro h0
    exact h (List.length_eq_zero.1 h0)
  simp only [median, sortQ_length]
  rw [if_neg hlen]

/-- C9: replacing one of N ≥ 3 values by an arbitrary outlier moves the
median at most to a neighboring element of the original sorted list: for
odd N the new median stays between the sorted neighbors of the old median
position, and for even N it stays between the averages of the adjacent
sorted pairs. -/
theorem median_outlier_robustness (xs : List ℚ) (i : ℕ) (v : ℚ)
    (hlen : 3 ≤ xs.length) (_hi : i < xs.length) :
    (xs.length % 2 = 1 →
      (sortQ xs).getD (xs.length / 2 - 1) 0 ≤ median (xs.set i v) ∧
      median (xs.set i v) ≤ (sortQ xs).getD (xs.length / 2 + 1) 0) ∧
    (xs.length % 2 = 0 →
      ((sortQ xs).getD (xs.length / 2 - 2) 0 + (sortQ xs).getD (xs.length / 2 - 1) 0) / 2 ≤
        median (xs.set i v) ∧
      median (xs.set i v) ≤
        ((sortQ xs).getD (xs.length / 2) 0 + (sortQ xs).getD (xs.length / 2 + 1) 0) / 2) := by
  have hsetlen : (xs.set i v).length = xs.length := List.length_set xs i v
  have hne : xs.set i v ≠ [] := by
    intro h0
    have := List.length_eq_zero.2 h0
    omega
  have hmed := median_eq_of_ne_nil (xs.set i v) hne
  rw [hsetlen] at hmed
  constructor
  · intro hodd
    have hm1 : 1 ≤ xs.length / 2 := by omega
    have hm2 : xs.length / 2 + 1 < xs.length := by omega
    rw [hmed, if_neg (by omega)]
    exact ⟨by
      have := orderStat_set_lower xs i v (xs.length / 2) hm1 (by omega)
      simpa using this,
      orderStat_set_upper xs i v (xs.length / 2) hm2⟩
  · intro heven
    have h4 : 4 ≤ xs.length := by omega
    have hm2 : 2 ≤ xs.length / 2 := by omega
    rw [hmed, if_pos heven]
    have hlow1 := orderStat_set_lower xs i v (xs.length / 2 - 1) (by omega) (by omega)
    have hlow2 := orderStat_set_lower xs i v (xs.length / 2) (by omega) (by omega)
    have hup1 := orderStat_set_upper xs i v (xs.length / 2 - 1) (by omega)
    have hup2 := orderStat_set_upper xs i v (xs.length / 2) (by omega)
    rw [show xs.length / 2 - 1 - 1 = xs.length / 2 - 2 by omega] at hlow1
    rw [show xs.length / 2 - 1 + 1 = xs.length / 2 by omega] at hup1
    constructor
    · linarith
    · linarith

/-- Witness for C9: replacing the 3 in [1, 2, 3] by the outlier -100
leaves the median between the old median's sorted neighbors 1 and 3. -/
theorem median_outlier_witness :
    (sortQ [1, 2, 3]).getD 0 0 ≤ median (([1, 2, 3] : List ℚ).set 2 (-100)) ∧
    median (([1, 2, 3] : List ℚ).set 2 (-100)) ≤ (sortQ [1, 2, 3]).getD 2 0 :=
  (median_outlier_robustness [1, 2, 3] 2 (-100) (by norm_num) (by norm_num)).1 (by norm_num)
